import Mathlib

/-!
Shallow embedding of the game character / inventory / crafting subsystem
(`task2.py`).  Python dictionaries keyed by `Item` objects compare keys by
object identity (the class defines no custom equality), so `Item` carries an
`iid` field modelling the identity of each constructed object; two distinct
objects with equal attributes have different `iid`.  Dictionaries preserve
insertion order, so an inventory is an association list from `Item` to the
stored integer quantity.  Python floats are modelled by exact rationals and
Python ints by `Int`.
-/

inductive ItemKind where
  | weapon (damage : Int) (weapon_class : String)
  | armor (defense : Int)
  | potion (effect : String) (value : Int)
  | material (material_type : String)
deriving DecidableEq

structure Item where
  iid : Nat
  name : String
  weight : ℚ
  cost : Int
  kind : ItemKind
deriving DecidableEq

/-- An inventory: the weight cap and the ordered mapping from item to
stored quantity (`self.items` in the source). -/
structure Inventory where
  max_weight : ℚ
  items : List (Item × Int)
deriving DecidableEq

/-- First entry whose key is `it` (Python `self.items[item]` lookup and
`item in self.items` membership). -/
def getEntry : List (Item × Int) → Item → Option Int
  | [], _ => none
  | e :: t, it => if e.1 = it then some e.2 else getEntry t it

/-- Dictionary update `self.items[item] += q` / insertion `self.items[item] = q`:
update the first entry with that key in place, otherwise append at the end. -/
def addEntry : List (Item × Int) → Item → Int → List (Item × Int)
  | [], it, q => [(it, q)]
  | e :: t, it, q => if e.1 = it then (e.1, e.2 + q) :: t else e :: addEntry t it q

/-- `self.items[item] -= q` followed by `del self.items[item]` when the
quantity reaches zero. -/
def removeEntry : List (Item × Int) → Item → Int → List (Item × Int)
  | [], _, _ => []
  | e :: t, it, q =>
      if e.1 = it then (if e.2 - q = 0 then t else (e.1, e.2 - q) :: t)
      else e :: removeEntry t it q

/-- Deletion of the entry of a key, used only to state the round-trip law. -/
def eraseKey : List (Item × Int) → Item → List (Item × Int)
  | [], _ => []
  | e :: t, it => if e.1 = it then t else e :: eraseKey t it

/-- First item whose `name` attribute matches (`Inventory.get_item_by_name`). -/
def findByName : List (Item × Int) → String → Option Item
  | [], _ => none
  | e :: t, n => if e.1.name = n then some e.1 else findByName t n

/-- `Inventory.calculate_weight`: sum of `item.weight * quantity`. -/
def calculate_weight : List (Item × Int) → ℚ
  | [] => 0
  | e :: t => e.1.weight * (e.2 : ℚ) + calculate_weight t

/-- `Inventory.add_item`: refuse when the new total weight would exceed the
cap, otherwise increment the stored quantity (or insert the entry). -/
def Inventory.add_item (inv : Inventory) (item : Item) (quantity : Int) :
    Bool × Inventory :=
  let current_weight := calculate_weight inv.items
  let new_weight := current_weight + item.weight * (quantity : ℚ)
  if new_weight > inv.max_weight then (false, inv)
  else (true, { inv with items := addEntry inv.items item quantity })

/-- `Inventory.remove_item`: fail when the item is absent or the stored
quantity is below the requested one, otherwise decrement and delete the
entry when it reaches zero. -/
def Inventory.remove_item (inv : Inventory) (item : Item) (quantity : Int) :
    Bool × Inventory :=
  match getEntry inv.items item with
  | none => (false, inv)
  | some cur =>
      if cur < quantity then (false, inv)
      else (true, { inv with items := removeEntry inv.items item quantity })

/-- `Inventory.get_item_by_name`. -/
def Inventory.get_item_by_name (inv : Inventory) (n : String) : Option Item :=
  findByName inv.items n

/-- The quantity stored for a key, read as 0 when the entry is absent
(`self.items[item]` at places where the key is known to be present). -/
def Inventory.qtyOf (inv : Inventory) (item : Item) : Int :=
  (getEntry inv.items item).getD 0

/-- The three items built by `Inventory.create_starter_inventory`. -/
def waterItem : Item := ⟨0, "Water", 0.5, 5, ItemKind.potion "heal" 10⟩

def breadItem : Item := ⟨1, "Bread", 0.3, 3, ItemKind.potion "heal" 15⟩

def goldItem : Item := ⟨2, "Gold Coins", 0.1, 1, ItemKind.material "currency"⟩

/-- `Inventory.create_starter_inventory`: a fresh 50.0-capacity inventory
holding Water x2, Bread x3, Gold Coins x50. -/
def Inventory.create_starter_inventory : Inventory :=
  let inv0 : Inventory := { max_weight := 50, items := [] }
  let inv1 := (inv0.add_item waterItem 2).2
  let inv2 := (inv1.add_item breadItem 3).2
  (inv2.add_item goldItem 50).2

inductive CharClass where
  | warrior
  | mage
  | archer
deriving DecidableEq

/-- The two equipment slots (`self.equipment = {"weapon": None, "armor": None}`). -/
structure Equipment where
  weapon : Option Item
  armor : Option Item
deriving DecidableEq

structure Character where
  cls : CharClass
  name : String
  health : Int
  max_health : Int
  inventory : Inventory
  equipment : Equipment
  level : Int
deriving DecidableEq

/-- The `allowed_weapons` list set by each subclass constructor; the
attribute is initialized to a per-class constant and never mutated, so it is
a function of the class. -/
def allowedWeapons : CharClass → List String
  | CharClass.warrior => ["sword", "axe", "mace"]
  | CharClass.mage => ["staff", "wand"]
  | CharClass.archer => ["bow", "crossbow"]

/-- `can_equip_weapon` of Warrior / Mage / Archer: membership of the weapon
class in the allowed list.  The parameter is typed `Weapon` in the source,
so the non-weapon branch is unreachable there. -/
def Character.can_equip_weapon (c : Character) (w : Item) : Bool :=
  match w.kind with
  | ItemKind.weapon _ wc => decide (wc ∈ allowedWeapons c.cls)
  | _ => false

/-- `Item.use`, dispatched on the item variant: `Weapon.use` equips when the
class check passes; `Armor.use` equips unconditionally; `Potion.use` heals
(capped at `max_health`) only for the "heal" effect, then removes one unit
of itself, ignoring the removal result, and returns True; `Material.use`
returns False. -/
def Item.use (it : Item) (c : Character) : Bool × Character :=
  match it.kind with
  | ItemKind.weapon _ _ =>
      if c.can_equip_weapon it then
        (true, { c with equipment := { c.equipment with weapon := some it } })
      else (false, c)
  | ItemKind.armor _ =>
      (true, { c with equipment := { c.equipment with armor := some it } })
  | ItemKind.potion effect value =>
      let c1 :=
        if effect = "heal" then
          { c with health := min c.max_health (c.health + value) }
        else c
      (true, { c1 with inventory := (c1.inventory.remove_item it 1).2 })
  | ItemKind.material _ => (false, c)

/-- `Character.use_item`: look the item up by name; absent means failure,
otherwise delegate to the item's `use`. -/
def Character.use_item (c : Character) (item_name : String) : Bool × Character :=
  match c.inventory.get_item_by_name item_name with
  | none => (false, c)
  | some item => item.use c

/-- `Character.__init__` as run by each subclass constructor: full health,
empty inventory with the class capacity, empty equipment, level 1. -/
def characterInit (cls : CharClass) (name : String) (health : Int)
    (max_weight : ℚ) : Character :=
  { cls := cls, name := name, health := health, max_health := health,
    inventory := { max_weight := max_weight, items := [] },
    equipment := { weapon := none, armor := none }, level := 1 }

/-- `Warrior.__init__`. -/
def warriorInit (name : String) : Character :=
  characterInit CharClass.warrior name 150 80

/-- `Mage.__init__`. -/
def mageInit (name : String) : Character :=
  characterInit CharClass.mage name 80 40

/-- `Archer.__init__`. -/
def archerInit (name : String) : Character :=
  characterInit CharClass.archer name 100 60

/-- `Character.create_character`: case-insensitive class lookup, then the
constructed character has its inventory replaced by the starter preset. -/
def Character.create_character (character_class : String) (name : String) :
    Option Character :=
  if character_class.toLower = "warrior" then
    some { warriorInit name with inventory := Inventory.create_starter_inventory }
  else if character_class.toLower = "mage" then
    some { mageInit name with inventory := Inventory.create_starter_inventory }
  else if character_class.toLower = "archer" then
    some { archerInit name with inventory := Inventory.create_starter_inventory }
  else none

/-- A crafting recipe; `ingredients` is a Python dict from ingredient name
to required quantity, hence an ordered list with distinct names. -/
structure Recipe where
  name : String
  required_level : Int
  ingredients : List (String × Int)
  result : Item
deriving DecidableEq

/-- The check loop of `CraftingSystem.craft_item`: it performs no mutation
and returns at the first ingredient that is absent or under-stocked. -/
def checkIngredients (inv : Inventory) : List (String × Int) → Bool
  | [] => true
  | (n, q) :: t =>
      match inv.get_item_by_name n with
      | none => false
      | some item => if inv.qtyOf item < q then false else checkIngredients inv t

/-- The commit loop of `CraftingSystem.craft_item`: re-look each ingredient
up by name and remove the required quantity.  A failed lookup makes the
removal a no-op (Python `remove_item` returns False on an absent key). -/
def consumeIngredients : Inventory → List (String × Int) → Inventory
  | inv, [] => inv
  | inv, (n, q) :: t =>
      match inv.get_item_by_name n with
      | none => consumeIngredients inv t
      | some item => consumeIngredients (inv.remove_item item q).2 t

/-- `CraftingSystem.craft_item`: level gate, ingredient check, then the
commit loop followed by `add_item(recipe.result)` whose boolean result the
source discards. -/
def CraftingSystem.craft_item (recipe : Recipe) (character : Character) :
    Option Item × Character :=
  if character.level < recipe.required_level then (none, character)
  else if checkIngredients character.inventory recipe.ingredients then
    let inv1 := consumeIngredients character.inventory recipe.ingredients
    let inv2 := (inv1.add_item recipe.result 1).2
    (some recipe.result, { character with inventory := inv2 })
  else (none, character)

/-- One inventory call, for stating reachability over call sequences. -/
inductive InvCall where
  | add (it : Item) (q : Int)
  | remove (it : Item) (q : Int)
deriving DecidableEq

/-- The quantity argument of a call. -/
def InvCall.qty : InvCall → Int
  | InvCall.add _ q => q
  | InvCall.remove _ q => q

/-- Apply one call, keeping the resulting state. -/
def applyCall (inv : Inventory) : InvCall → Inventory
  | InvCall.add it q => (inv.add_item it q).2
  | InvCall.remove it q => (inv.remove_item it q).2

/-- Run a sequence of inventory calls. -/
def runCalls (inv : Inventory) (cs : List InvCall) : Inventory :=
  cs.foldl applyCall inv

/-! ### Concrete items, characters and recipes used to instantiate the
theorems, mirroring the demonstration objects of the source. -/

def woodM : Item := ⟨11, "Wood", 1, 5, ItemKind.material "wood"⟩

def ironOreM : Item := ⟨10, "Iron Ore", 2, 10, ItemKind.material "metal"⟩

def ironSwordW : Item := ⟨12, "Iron Sword", 5, 100, ItemKind.weapon 25 "sword"⟩

def steelSwordW : Item := ⟨13, "Steel Sword", 6, 150, ItemKind.weapon 30 "sword"⟩

def longbowW : Item := ⟨14, "Longbow", 3, 120, ItemKind.weapon 28 "bow"⟩

def healPotionI : Item := ⟨15, "Health Potion", 0.5, 50, ItemKind.potion "heal" 80⟩

def manaPotionI : Item := ⟨16, "Mana Potion", 0.5, 40, ItemKind.potion "mana" 30⟩

def oreItem : Item := ⟨17, "Ore", 1, 1, ItemKind.material "metal"⟩

def anvilItem : Item := ⟨18, "Anvil", 100, 10, ItemKind.weapon 1 "sword"⟩

/-- A level-1 warrior holding enough materials for the Iron Sword recipe. -/
def smithC : Character :=
  ⟨CharClass.warrior, "Smith", 150, 150,
    ⟨80, [(ironOreM, 5), (woodM, 3)]⟩, ⟨none, none⟩, 1⟩

/-- A warrior holding only 2 Iron Ore (the failing-craft scenario). -/
def poorSmithC : Character :=
  ⟨CharClass.warrior, "Poor", 150, 150,
    ⟨80, [(ironOreM, 2), (woodM, 3)]⟩, ⟨none, none⟩, 1⟩

/-- A warrior whose inventory is already at its 1.0 weight cap. -/
def crampedC : Character :=
  ⟨CharClass.warrior, "Cramped", 150, 150,
    ⟨1, [(oreItem, 1)]⟩, ⟨none, none⟩, 1⟩

/-- An archer holding a bow and a sword. -/
def archerC : Character :=
  ⟨CharClass.archer, "Legolas", 100, 100,
    ⟨60, [(longbowW, 1), (steelSwordW, 1)]⟩, ⟨none, none⟩, 1⟩

/-- A warrior at 100 of 150 health holding heal potions of value 80. -/
def hurtWarriorC : Character :=
  ⟨CharClass.warrior, "Aragorn", 100, 150,
    ⟨80, [(healPotionI, 3)]⟩, ⟨none, none⟩, 1⟩

/-- A mage holding potions whose effect is not "heal". -/
def manaMageC : Character :=
  ⟨CharClass.mage, "Gandalf", 50, 80,
    ⟨40, [(manaPotionI, 2)]⟩, ⟨none, none⟩, 1⟩

/-- The Iron Sword recipe registered by `initialize_recipes`. -/
def ironSwordRecipe : Recipe :=
  ⟨"Iron Sword", 1, [("Iron Ore", 3), ("Wood", 1)], ironSwordW⟩

/-- A recipe whose result is far too heavy for the crafting inventory. -/
def anvilRecipe : Recipe := ⟨"Anvil", 1, [("Ore", 1)], anvilItem⟩

/-! ### Basic lemmas about the association-list operations -/

theorem findByName_name {l : List (Item × Int)} {n : String} {it : Item}
    (h : findByName l n = some it) : it.name = n := by
  induction l with
  | nil => simp [findByName] at h
  | cons e t ih =>
    by_cases he : e.1.name = n
    · simp [findByName, he] at h
      simp [← h, he]
    · simp [findByName, he] at h
      exact ih h

theorem getEntry_eq_none_of_not_mem {l : List (Item × Int)} {it : Item}
    (h : it ∉ l.map Prod.fst) : getEntry l it = none := by
  induction l with
  | nil => simp [getEntry]
  | cons e t ih =>
    simp only [List.map_cons, List.mem_cons] at h
    push_neg at h
    simp [getEntry, Ne.symm h.1, ih h.2]

theorem getEntry_isSome_of_findByName {l : List (Item × Int)} {n : String}
    {it : Item} (h : findByName l n = some it) : ∃ p, getEntry l it = some p := by
  induction l with
  | nil => simp [findByName] at h
  | cons e t ih =>
    by_cases he : e.1.name = n
    · simp [findByName, he] at h
      exact ⟨e.2, by simp [getEntry, h]⟩
    · simp [findByName, he] at h
      rcases ih h with ⟨p, hp⟩
      by_cases hk : e.1 = it
      · exact ⟨e.2, by simp [getEntry, hk]⟩
      · exact ⟨p, by simp [getEntry, hk, hp]⟩

theorem calculate_weight_addEntry (l : List (Item × Int)) (it : Item) (q : Int) :
    calculate_weight (addEntry l it q) = calculate_weight l + it.weight * (q : ℚ) := by
  induction l with
  | nil => simp [addEntry, calculate_weight]
  | cons e t ih =>
    obtain ⟨i, p⟩ := e
    by_cases he : i = it
    · subst he
      simp only [addEntry, if_pos rfl, calculate_weight]
      push_cast
      ring
    · simp only [addEntry, if_neg he, calculate_weight, ih]
      ring

theorem calculate_weight_removeEntry {l : List (Item × Int)} {it : Item} {p : Int}
    (q : Int) (hp : getEntry l it = some p) :
    calculate_weight (removeEntry l it q) = calculate_weight l - it.weight * (q : ℚ) := by
  induction l with
  | nil => simp [getEntry] at hp
  | cons e t ih =>
    obtain ⟨i, p0⟩ := e
    by_cases he : i = it
    · subst he
      simp only [getEntry, if_pos rfl] at hp
      injection hp with hp
      subst hp
      by_cases hz : p0 - q = 0
      · have hq : p0 = q := by omega
        subst hq
        simp [removeEntry, hz, calculate_weight]
      · simp only [removeEntry, if_pos rfl, if_neg hz, calculate_weight]
        push_cast
        ring
    · simp only [getEntry, if_neg he] at hp
      simp only [removeEntry, if_neg he, calculate_weight, ih hp]
      ring

theorem getEntry_addEntry_self (l : List (Item × Int)) (it : Item) (q : Int) :
    getEntry (addEntry l it q) it = some ((getEntry l it).getD 0 + q) := by
  induction l with
  | nil => simp [addEntry, getEntry]
  | cons e t ih =>
    by_cases he : e.1 = it
    · simp [addEntry, he, getEntry]
    · simp [addEntry, he, getEntry, ih]

theorem getEntry_addEntry_ne {l : List (Item × Int)} {it j : Item} (q : Int)
    (hne : j ≠ it) : getEntry (addEntry l it q) j = getEntry l j := by
  induction l with
  | nil => simp [addEntry, getEntry, Ne.symm hne]
  | cons e t ih =>
    by_cases he : e.1 = it
    · simp only [addEntry, if_pos he, getEntry]
      rw [if_neg (by rw [he]; exact Ne.symm hne), if_neg (by rw [he]; exact Ne.symm hne)]
    · by_cases hej : e.1 = j
      · simp [addEntry, he, getEntry, hej, hne]
      · simp [addEntry, he, getEntry, hej, ih]

theorem getEntry_removeEntry_ne {l : List (Item × Int)} {it j : Item} (q : Int)
    (hne : j ≠ it) : getEntry (removeEntry l it q) j = getEntry l j := by
  induction l with
  | nil => simp [removeEntry]
  | cons e t ih =>
    by_cases he : e.1 = it
    · simp only [removeEntry, if_pos he]
      by_cases hz : e.2 - q = 0
      · rw [if_pos hz]
        simp only [getEntry]
        rw [if_neg (by rw [he]; exact Ne.symm hne)]
      · rw [if_neg hz]
        simp only [getEntry]
        rw [if_neg (by rw [he]; exact Ne.symm hne), if_neg (by rw [he]; exact Ne.symm hne)]
    · by_cases hej : e.1 = j
      · simp [removeEntry, he, getEntry, hej, hne]
      · simp [removeEntry, he, getEntry, hej, ih]

theorem getEntry_removeEntry_self {l : List (Item × Int)} {it : Item} {p : Int}
    (q : Int) (hnd : (l.map Prod.fst).Nodup) (hp : getEntry l it = some p) :
    getEntry (removeEntry l it q) it = if p - q = 0 then none else some (p - q) := by
  induction l with
  | nil => simp [getEntry] at hp
  | cons e t ih =>
    simp only [List.map_cons, List.nodup_cons] at hnd
    by_cases he : e.1 = it
    · simp only [getEntry, if_pos he] at hp
      injection hp with hp
      by_cases hz : e.2 - q = 0
      · simp only [removeEntry, if_pos he, if_pos hz, hp ▸ hz, if_pos (hp ▸ hz)]
        exact getEntry_eq_none_of_not_mem (he ▸ hnd.1)
      · simp only [removeEntry, if_pos he, if_neg hz, getEntry, if_pos he,
          if_neg (hp ▸ hz), hp]
    · simp only [getEntry, if_neg he] at hp
      simp only [removeEntry, if_neg he, getEntry, if_neg he]
      exact ih hnd.2 hp

theorem findByName_removeEntry_ne {l : List (Item × Int)} {it : Item} {n : String}
    (q : Int) (hne : it.name ≠ n) : findByName (removeEntry l it q) n = findByName l n := by
  induction l with
  | nil => simp [removeEntry]
  | cons e t ih =>
    by_cases he : e.1 = it
    · have hen : ¬ e.1.name = n := by rw [he]; exact hne
      simp only [removeEntry, if_pos he]
      by_cases hz : e.2 - q = 0
      · rw [if_pos hz]
        simp only [findByName, if_neg hen]
      · rw [if_neg hz]
        simp only [findByName, if_neg hen]
    · by_cases hen : e.1.name = n
      · simp [removeEntry, he, findByName, hen]
      · simp [removeEntry, he, findByName, hen, ih]

theorem removeEntry_keys_sublist (l : List (Item × Int)) (it : Item) (q : Int) :
    ((removeEntry l it q).map Prod.fst).Sublist (l.map Prod.fst) := by
  induction l with
  | nil => simp [removeEntry]
  | cons e t ih =>
    by_cases he : e.1 = it
    · simp only [removeEntry, if_pos he]
      by_cases hz : e.2 - q = 0
      · rw [if_pos hz]
        exact (List.sublist_cons_self _ _)
      · rw [if_neg hz]
        simp only [List.map_cons]
        exact List.Sublist.cons₂ _ (List.Sublist.refl _)
    · simp only [removeEntry, if_neg he, List.map_cons]
      exact List.Sublist.cons₂ _ ih

/-! ### Lemmas about the inventory operations -/

theorem Inventory.add_item_eq (inv : Inventory) (it : Item) (q : Int) :
    inv.add_item it q =
      if calculate_weight inv.items + it.weight * (q : ℚ) > inv.max_weight
      then (false, inv)
      else (true, { inv with items := addEntry inv.items it q }) := rfl

theorem Inventory.add_item_fst_true_iff (inv : Inventory) (it : Item) (q : Int) :
    (inv.add_item it q).1 = true ↔
      calculate_weight (addEntry inv.items it q) ≤ inv.max_weight := by
  rw [Inventory.add_item_eq, calculate_weight_addEntry]
  by_cases h : calculate_weight inv.items + it.weight * (q : ℚ) > inv.max_weight
  · simp [h]
  · simp [h]
    linarith

theorem Inventory.add_item_snd_of_true {inv : Inventory} {it : Item} {q : Int}
    (h : (inv.add_item it q).1 = true) :
    (inv.add_item it q).2 = { inv with items := addEntry inv.items it q } := by
  rw [Inventory.add_item_eq] at h ⊢
  by_cases hw : calculate_weight inv.items + it.weight * (q : ℚ) > inv.max_weight
  · simp [hw] at h
  · simp [hw]

theorem Inventory.add_item_snd_of_false {inv : Inventory} {it : Item} {q : Int}
    (h : (inv.add_item it q).1 = false) : (inv.add_item it q).2 = inv := by
  rw [Inventory.add_item_eq] at h ⊢
  by_cases hw : calculate_weight inv.items + it.weight * (q : ℚ) > inv.max_weight
  · simp [hw]
  · simp [hw] at h

theorem Inventory.remove_item_of_le {inv : Inventory} {it : Item} {p : Int}
    (q : Int) (hp : getEntry inv.items it = some p) (hq : ¬ p < q) :
    inv.remove_item it q =
      (true, { inv with items := removeEntry inv.items it q }) := by
  simp [Inventory.remove_item, hp, hq]

theorem Inventory.remove_item_snd_max_weight (inv : Inventory) (it : Item) (q : Int) :
    ((inv.remove_item it q).2).max_weight = inv.max_weight := by
  rw [Inventory.remove_item]
  rcases h : getEntry inv.items it with _ | p
  · rfl
  · by_cases hq : p < q
    · simp [hq]
    · simp [hq]

theorem checkIngredients_true_iff (inv : Inventory) (l : List (String × Int)) :
    checkIngredients inv l = true ↔
      ∀ p ∈ l, ∃ it : Item,
        inv.get_item_by_name p.1 = some it ∧ ¬ inv.qtyOf it < p.2 := by
  induction l with
  | nil => simp [checkIngredients]
  | cons e t ih =>
    obtain ⟨n, q⟩ := e
    rcases hf : inv.get_item_by_name n with _ | item
    · simp only [checkIngredients, hf]
      constructor
      · intro h
        cases h
      · intro h
        rcases h (n, q) (List.mem_cons_self _ _) with ⟨it, hit, _⟩
        rw [hf] at hit
        cases hit
    · simp only [checkIngredients, hf]
      by_cases hq : inv.qtyOf item < q
      · simp only [if_pos hq]
        constructor
        · intro h
          cases h
        · intro h
          rcases h (n, q) (List.mem_cons_self _ _) with ⟨it, hit, hle⟩
          rw [hf] at hit
          injection hit with hit
          exact absurd (hit ▸ hq) hle
      · simp only [if_neg hq, ih]
        constructor
        · intro h p hp
          rcases List.mem_cons.mp hp with hph | hpt
          · exact ⟨item, hph ▸ hf, hph ▸ hq⟩
          · exact h p hpt
        · intro h p hp
          exact h p (List.mem_cons_of_mem _ hp)

/-- Behaviour of the commit loop of `craft_item` when the checks passed:
the weight cap is untouched, keys stay distinct, lookups and entries of
names outside the ingredient list are untouched, and the item found for
each ingredient name loses exactly the required quantity. -/
theorem consumeIngredients_spec (l : List (String × Int)) :
    ∀ inv : Inventory,
    (inv.items.map Prod.fst).Nodup →
    (l.map Prod.fst).Nodup →
    (∀ p ∈ l, ∃ it : Item, inv.get_item_by_name p.1 = some it ∧ p.2 ≤ inv.qtyOf it) →
    (consumeIngredients inv l).max_weight = inv.max_weight ∧
    ((consumeIngredients inv l).items.map Prod.fst).Nodup ∧
    (∀ n : String, n ∉ l.map Prod.fst →
        (consumeIngredients inv l).get_item_by_name n = inv.get_item_by_name n) ∧
    (∀ j : Item, j.name ∉ l.map Prod.fst →
        getEntry (consumeIngredients inv l).items j = getEntry inv.items j) ∧
    (∀ p ∈ l, ∀ it : Item, inv.get_item_by_name p.1 = some it →
        (consumeIngredients inv l).qtyOf it = inv.qtyOf it - p.2) := by
  induction l with
  | nil =>
    intro inv _ _ _
    exact ⟨rfl, by simpa [consumeIngredients], fun n _ => rfl, fun j _ => rfl,
      fun p hp => absurd hp (List.not_mem_nil p)⟩
  | cons e t ih =>
    intro inv hkeys hnames havail
    obtain ⟨n, q⟩ := e
    rw [List.map_cons] at hnames
    rcases List.nodup_cons.mp hnames with ⟨hnotin, hnames'⟩
    obtain ⟨it0, hf0, hle0⟩ := havail (n, q) (List.mem_cons_self _ _)
    have hname0 : it0.name = n := findByName_name hf0
    obtain ⟨p, hp⟩ := getEntry_isSome_of_findByName hf0
    have hqty0 : inv.qtyOf it0 = p := by simp [Inventory.qtyOf, hp]
    have hle0' : ¬ p < q := by rw [hqty0] at hle0; omega
    have hrm := Inventory.remove_item_of_le q hp hle0'
    have hstep : consumeIngredients inv ((n, q) :: t) =
        consumeIngredients { inv with items := removeEntry inv.items it0 q } t := by
      simp [consumeIngredients, Inventory.get_item_by_name] at *
      simp [hf0, hrm]
    have hkeys1 :
        (({ inv with items := removeEntry inv.items it0 q } : Inventory).items.map
          Prod.fst).Nodup :=
      (removeEntry_keys_sublist _ _ _).nodup hkeys
    have havail1 : ∀ p' ∈ t, ∃ it : Item,
        ({ inv with items := removeEntry inv.items it0 q } : Inventory).get_item_by_name
          p'.1 = some it ∧
        p'.2 ≤ ({ inv with items := removeEntry inv.items it0 q } : Inventory).qtyOf it := by
      intro p' hp'
      obtain ⟨it, hf, hqle⟩ := havail p' (List.mem_cons_of_mem _ hp')
      have hp'mem : p'.1 ∈ t.map Prod.fst := List.mem_map_of_mem Prod.fst hp'
      have hp'n : p'.1 ≠ n := by
        intro h
        rw [h] at hp'mem
        exact hnotin hp'mem
      have hitname : it.name = p'.1 := findByName_name hf
      have hitne : it ≠ it0 := by
        intro h
        exact hp'n (by rw [← hitname, h, hname0])
      refine ⟨it, ?_, ?_⟩
      · show findByName (removeEntry inv.items it0 q) p'.1 = some it
        rw [findByName_removeEntry_ne q (by rw [hname0]; exact Ne.symm hp'n)]
        exact hf
      · show p'.2 ≤ (getEntry (removeEntry inv.items it0 q) it).getD 0
        rw [getEntry_removeEntry_ne q hitne]
        exact hqle
    obtain ⟨ihmax, ihnodup, ihfind, ihentry, ihmain⟩ :=
      ih { inv with items := removeEntry inv.items it0 q } hkeys1 hnames' havail1
    rw [hstep]
    refine ⟨ihmax, ihnodup, ?_, ?_, ?_⟩
    · intro n' hn'
      rw [List.map_cons, List.mem_cons] at hn'
      push_neg at hn'
      rw [ihfind n' hn'.2]
      show findByName (removeEntry inv.items it0 q) n' = inv.get_item_by_name n'
      rw [findByName_removeEntry_ne q (by rw [hname0]; exact Ne.symm hn'.1)]
      rfl
    · intro j hj
      rw [List.map_cons, List.mem_cons] at hj
      push_neg at hj
      have hjne : j ≠ it0 := by
        intro h
        exact hj.1 (by rw [h, hname0])
      rw [ihentry j hj.2]
      exact getEntry_removeEntry_ne q hjne
    · intro p' hp' it hfind
      rcases List.mem_cons.mp hp' with hph | hpt
      · subst hph
        rw [hf0] at hfind
        injection hfind with hfind
        subst hfind
        have h1 : getEntry (consumeIngredients
            { inv with items := removeEntry inv.items it0 q } t).items it0 =
            getEntry (removeEntry inv.items it0 q) it0 :=
          ihentry it0 (by rw [hname0]; exact hnotin)
        have h2 : getEntry (removeEntry inv.items it0 q) it0 =
            if p - q = 0 then none else some (p - q) :=
          getEntry_removeEntry_self q hkeys hp
        show (getEntry (consumeIngredients
            { inv with items := removeEntry inv.items it0 q } t).items it0).getD 0 =
          inv.qtyOf it0 - q
        rw [h1, h2, hqty0]
        by_cases hz : p - q = 0
        · rw [if_pos hz]
          simp only [Option.getD_none]
          omega
        · rw [if_neg hz]
          rfl
      · have hp'mem : p'.1 ∈ t.map Prod.fst := List.mem_map_of_mem Prod.fst hpt
        have hp'n : p'.1 ≠ n := by
          intro h
          rw [h] at hp'mem
          exact hnotin hp'mem
        have hitname : it.name = p'.1 := findByName_name hfind
        have hitne : it ≠ it0 := by
          intro h
          exact hp'n (by rw [← hitname, h, hname0])
        have hfind1 : ({ inv with items := removeEntry inv.items it0 q } :
            Inventory).get_item_by_name p'.1 = some it := by
          show findByName (removeEntry inv.items it0 q) p'.1 = some it
          rw [findByName_removeEntry_ne q (by rw [hname0]; exact Ne.symm hp'n)]
          exact hfind
        rw [ihmain p' hpt it hfind1]
        show (getEntry (removeEntry inv.items it0 q) it).getD 0 - p'.2 =
          inv.qtyOf it - p'.2
        rw [getEntry_removeEntry_ne q hitne]
        rfl

/-! ### Further helper lemmas -/

theorem getEntry_mem {l : List (Item × Int)} {it : Item} {p : Int}
    (h : getEntry l it = some p) : (it, p) ∈ l := by
  induction l with
  | nil => simp [getEntry] at h
  | cons e t ih =>
    by_cases he : e.1 = it
    · simp only [getEntry, if_pos he] at h
      injection h with h
      rw [show (it, p) = e from by rw [← he, ← h]]
      exact List.mem_cons_self _ _
    · simp only [getEntry, if_neg he] at h
      exact List.mem_cons_of_mem _ (ih h)

theorem addEntry_entries_pos {l : List (Item × Int)} {it : Item} {q : Int}
    (h1 : ∀ e ∈ l, 1 ≤ e.2) (hq : 1 ≤ q) :
    ∀ e ∈ addEntry l it q, 1 ≤ e.2 := by
  induction l with
  | nil =>
    intro e he
    simp only [addEntry, List.mem_singleton] at he
    simp [he, hq]
  | cons hd t ih =>
    intro e he
    by_cases hh : hd.1 = it
    · simp only [addEntry, if_pos hh, List.mem_cons] at he
      rcases he with he | he
      · have hhd : 1 ≤ hd.2 := h1 hd (List.mem_cons_self _ _)
        simp [he]
        omega
      · exact h1 e (List.mem_cons_of_mem _ he)
    · simp only [addEntry, if_neg hh, List.mem_cons] at he
      rcases he with he | he
      · exact he ▸ h1 hd (List.mem_cons_self _ _)
      · exact ih (fun x hx => h1 x (List.mem_cons_of_mem _ hx)) e he

theorem removeEntry_entries_pos {l : List (Item × Int)} {it : Item} {p q : Int}
    (h1 : ∀ e ∈ l, 1 ≤ e.2) (hp : getEntry l it = some p) (hpq : q ≤ p) :
    ∀ e ∈ removeEntry l it q, 1 ≤ e.2 := by
  induction l with
  | nil => simp [removeEntry]
  | cons hd t ih =>
    intro e he
    by_cases hh : hd.1 = it
    · simp only [getEntry, if_pos hh] at hp
      injection hp with hp
      by_cases hz : hd.2 - q = 0
      · simp only [removeEntry, if_pos hh, if_pos hz] at he
        exact h1 e (List.mem_cons_of_mem _ he)
      · simp only [removeEntry, if_pos hh, if_neg hz, List.mem_cons] at he
        rcases he with he | he
        · simp [he]
          omega
        · exact h1 e (List.mem_cons_of_mem _ he)
    · simp only [getEntry, if_neg hh] at hp
      simp only [removeEntry, if_neg hh, List.mem_cons] at he
      rcases he with he | he
      · exact he ▸ h1 hd (List.mem_cons_self _ _)
      · exact ih (fun x hx => h1 x (List.mem_cons_of_mem _ hx)) hp e he

theorem removeEntry_addEntry (l : List (Item × Int)) (it : Item) (q : Int) :
    removeEntry (addEntry l it q) it q =
      if getEntry l it = some 0 then eraseKey l it else l := by
  induction l with
  | nil => simp [addEntry, removeEntry, getEntry]
  | cons e t ih =>
    by_cases he : e.1 = it
    · simp only [addEntry, if_pos he, removeEntry, if_pos he, getEntry]
      have harith : e.2 + q - q = e.2 := by omega
      rw [harith]
      by_cases hz : e.2 = 0
      · simp [hz, eraseKey, he]
      · simp [hz, eraseKey, he]
        rw [← he]
    · simp only [addEntry, if_neg he, removeEntry, if_neg he, getEntry, eraseKey, ih]
      by_cases hg : getEntry t it = some 0
      · simp [hg]
      · simp [hg]

/-! ### Claim theorems -/

/-- Claim C1: for every recipe and character, if the character level is below
the required level, or some ingredient name is absent from the inventory, or
the item found by that name stores less than the required quantity, then
craft_item returns none and the character — in particular every quantity of
the inventory — is exactly as before the call. -/
theorem c1_craft_item_failure (r : Recipe) (c : Character)
    (h : c.level < r.required_level ∨
      ∃ p ∈ r.ingredients,
        c.inventory.get_item_by_name p.1 = none ∨
        ∃ it : Item, c.inventory.get_item_by_name p.1 = some it ∧
          c.inventory.qtyOf it < p.2) :
    CraftingSystem.craft_item r c = (none, c) := by
  rw [CraftingSystem.craft_item]
  by_cases hlev : c.level < r.required_level
  · rw [if_pos hlev]
  · rw [if_neg hlev]
    have hchk : ¬ checkIngredients c.inventory r.ingredients = true := by
      rcases h with h | ⟨p, hp, hfail⟩
      · exact absurd h hlev
      · intro htrue
        rcases (checkIngredients_true_iff _ _).mp htrue p hp with ⟨it, hit, hnlt⟩
        rcases hfail with hnone | ⟨it2, hit2, hlt⟩
        · rw [hit] at hnone
          cases hnone
        · rw [hit] at hit2
          injection hit2 with h2
          exact hnlt (h2 ▸ hlt)
    rw [if_neg hchk]

/-- Witness for C1: the failing-craft scenario of the specification — the
Iron Sword recipe needs 3 Iron Ore, the character holds 2, so craft_item
returns none and the inventory is untouched. -/
theorem c1_craft_item_failure_witness :
    CraftingSystem.craft_item ironSwordRecipe poorSmithC = (none, poorSmithC) :=
  c1_craft_item_failure ironSwordRecipe poorSmithC
    (Or.inr ⟨("Iron Ore", 3), by decide,
      Or.inr ⟨ironOreM, by with_unfolding_all exact of_decide_eq_true rfl,
        by with_unfolding_all exact of_decide_eq_true rfl⟩⟩)

/-- Counterexample to C2 as stated: with every check passing (level 1,
1 Ore required and held), craft_item returns the Anvil yet the Anvil is NOT
in the inventory — the source discards the boolean of the final add_item,
and the 100.0-weight result does not fit under the 1.0 cap, so the crafted
item silently vanishes while the ingredients are still consumed. -/
theorem c2_craft_item_counterexample :
    (CraftingSystem.craft_item anvilRecipe crampedC).1 = some anvilItem ∧
    (CraftingSystem.craft_item anvilRecipe crampedC).2.inventory.items = [] ∧
    (CraftingSystem.craft_item anvilRecipe crampedC).2.inventory.qtyOf anvilItem
      = 0 := by
  with_unfolding_all exact of_decide_eq_true rfl

/-- Claim C2 (amended): when the level check passes and every ingredient
name (distinct names, as dictionary keys are) finds an item holding at least
the required quantity, craft_item returns the result item and removes
exactly the required quantity of each ingredient; the result item is added
to the inventory exactly when the post-removal weight plus its weight stays
within max_weight, and otherwise the inventory keeps only the removals
(the hypothesis on the result name rules out a result aliased to an
ingredient). -/
theorem c2_craft_item_success (r : Recipe) (c : Character)
    (hlev : ¬ c.level < r.required_level)
    (hnames : (r.ingredients.map Prod.fst).Nodup)
    (hkeys : (c.inventory.items.map Prod.fst).Nodup)
    (havail : ∀ p ∈ r.ingredients, ∃ it : Item,
      c.inventory.get_item_by_name p.1 = some it ∧ p.2 ≤ c.inventory.qtyOf it)
    (hres : ∀ p ∈ r.ingredients, r.result.name ≠ p.1) :
    (CraftingSystem.craft_item r c).1 = some r.result ∧
    (∀ p ∈ r.ingredients, ∀ it : Item,
      c.inventory.get_item_by_name p.1 = some it →
      (CraftingSystem.craft_item r c).2.inventory.qtyOf it =
        c.inventory.qtyOf it - p.2) ∧
    (calculate_weight (consumeIngredients c.inventory r.ingredients).items +
        r.result.weight ≤ c.inventory.max_weight →
      (CraftingSystem.craft_item r c).2.inventory.qtyOf r.result =
        c.inventory.qtyOf r.result + 1) ∧
    (c.inventory.max_weight <
        calculate_weight (consumeIngredients c.inventory r.ingredients).items +
          r.result.weight →
      (CraftingSystem.craft_item r c).2.inventory.qtyOf r.result =
        c.inventory.qtyOf r.result) := by
  have hchk : checkIngredients c.inventory r.ingredients = true := by
    rw [checkIngredients_true_iff]
    intro p hp
    rcases havail p hp with ⟨it, hit, hle⟩
    exact ⟨it, hit, by omega⟩
  have hcraft : CraftingSystem.craft_item r c =
      (some r.result, { c with inventory :=
        ((consumeIngredients c.inventory r.ingredients).add_item r.result 1).2 }) := by
    rw [CraftingSystem.craft_item, if_neg hlev, hchk]
    rw [if_pos rfl]
  obtain ⟨hmax, hnodup, hfind, hentry, hmain⟩ :=
    consumeIngredients_spec r.ingredients c.inventory hkeys hnames havail
  have hresname : r.result.name ∉ r.ingredients.map Prod.fst := by
    intro hmem
    rcases List.mem_map.mp hmem with ⟨p, hp, hpe⟩
    exact hres p hp hpe.symm
  refine ⟨by rw [hcraft], ?_, ?_, ?_⟩
  · intro p hp it hit
    rw [hcraft]
    have hitname : it.name = p.1 := findByName_name hit
    have hne : it ≠ r.result := by
      intro h
      exact hres p hp (by rw [← h, hitname])
    show (((consumeIngredients c.inventory r.ingredients).add_item
      r.result 1).2).qtyOf it = c.inventory.qtyOf it - p.2
    rcases Bool.eq_false_or_eq_true
        ((consumeIngredients c.inventory r.ingredients).add_item r.result 1).1
      with hb | hb
    · rw [Inventory.add_item_snd_of_true hb]
      show (getEntry (addEntry (consumeIngredients c.inventory
        r.ingredients).items r.result 1) it).getD 0 = c.inventory.qtyOf it - p.2
      rw [getEntry_addEntry_ne 1 hne]
      exact hmain p hp it hit
    · rw [Inventory.add_item_snd_of_false hb]
      exact hmain p hp it hit
  · intro hfit
    rw [hcraft]
    have hb : ((consumeIngredients c.inventory r.ingredients).add_item
        r.result 1).1 = true := by
      rw [Inventory.add_item_fst_true_iff, calculate_weight_addEntry, hmax]
      push_cast
      linarith
    rw [Inventory.add_item_snd_of_true hb]
    show (getEntry (addEntry (consumeIngredients c.inventory
      r.ingredients).items r.result 1) r.result).getD 0 =
      c.inventory.qtyOf r.result + 1
    rw [getEntry_addEntry_self, Option.getD_some, hentry r.result hresname]
    rfl
  · intro hover
    rw [hcraft]
    have hb : ((consumeIngredients c.inventory r.ingredients).add_item
        r.result 1).1 = false := by
      cases hb : ((consumeIngredients c.inventory r.ingredients).add_item
          r.result 1).1
      · rfl
      · exfalso
        rw [Inventory.add_item_fst_true_iff, calculate_weight_addEntry, hmax]
          at hb
        push_cast at hb
        linarith
    rw [Inventory.add_item_snd_of_false hb]
    show (consumeIngredients c.inventory r.ingredients).qtyOf r.result =
      c.inventory.qtyOf r.result
    show (getEntry (consumeIngredients c.inventory r.ingredients).items
      r.result).getD 0 = c.inventory.qtyOf r.result
    rw [hentry r.result hresname]
    rfl

/-- Witness for the amended C2: the Smith (level 1, 5 Iron Ore and 3 Wood)
crafts the Iron Sword recipe: the sword comes back, Iron Ore drops by 3,
Wood drops by 1, and one sword lands in the inventory. -/
theorem c2_craft_item_success_witness :
    (CraftingSystem.craft_item ironSwordRecipe smithC).1 = some ironSwordW ∧
    (CraftingSystem.craft_item ironSwordRecipe smithC).2.inventory.qtyOf
      ironOreM = smithC.inventory.qtyOf ironOreM - 3 ∧
    (CraftingSystem.craft_item ironSwordRecipe smithC).2.inventory.qtyOf
      woodM = smithC.inventory.qtyOf woodM - 1 ∧
    (CraftingSystem.craft_item ironSwordRecipe smithC).2.inventory.qtyOf
      ironSwordW = smithC.inventory.qtyOf ironSwordW + 1 := by
  have h := c2_craft_item_success ironSwordRecipe smithC (by decide) (by decide)
    (by with_unfolding_all exact of_decide_eq_true rfl)
    (by
      intro p hp
      rcases List.mem_cons.mp hp with h1 | hrest
      · subst h1
        exact ⟨ironOreM, by with_unfolding_all exact of_decide_eq_true rfl,
          by with_unfolding_all exact of_decide_eq_true rfl⟩
      · rcases List.mem_cons.mp hrest with h2 | h3
        · subst h2
          exact ⟨woodM, by with_unfolding_all exact of_decide_eq_true rfl,
            by with_unfolding_all exact of_decide_eq_true rfl⟩
        · exact absurd h3 (List.not_mem_nil p))
    (by decide)
  refine ⟨h.1, ?_, ?_, ?_⟩
  · exact h.2.1 ("Iron Ore", 3) (by decide) ironOreM
      (by with_unfolding_all exact of_decide_eq_true rfl)
  · exact h.2.1 ("Wood", 1) (by decide) woodM
      (by with_unfolding_all exact of_decide_eq_true rfl)
  · exact h.2.2.1 (by with_unfolding_all exact of_decide_eq_true rfl)

/-- Counterexample to C3 as stated: an inventory at its weight cap (item of
weight 1, quantity 1, cap 1) accepts remove_item with quantity -1 — the
guard `self.items[item] < quantity` compares 1 < -1 — and the subtraction
of a negative quantity raises the stored quantity to 2, pushing the total
weight to 2, strictly above max_weight. -/
theorem c3_weight_invariant_counterexample :
    calculate_weight (Inventory.mk 1 [(woodM, 1)]).items ≤
      (Inventory.mk 1 [(woodM, 1)]).max_weight ∧
    ((Inventory.mk 1 [(woodM, 1)]).remove_item woodM (-1)).1 = true ∧
    ¬ calculate_weight
        (((Inventory.mk 1 [(woodM, 1)]).remove_item woodM (-1)).2).items ≤
      (Inventory.mk 1 [(woodM, 1)]).max_weight := by
  with_unfolding_all exact of_decide_eq_true rfl

/-- Claim C3 (amended): for every inventory whose total weight is within
max_weight, a successful add_item leaves the total weight within
max_weight, and so does a successful remove_item provided the quantity and
the item weight are nonnegative; add_item succeeds — incrementing the
stored quantity by the given amount — exactly when the resulting total
weight is at most max_weight, and mutates nothing when it fails. -/
theorem c3_weight_invariant (inv : Inventory) (it : Item) (q : Int)
    (hw : calculate_weight inv.items ≤ inv.max_weight) :
    ((inv.add_item it q).1 = true →
      calculate_weight ((inv.add_item it q).2).items ≤ inv.max_weight) ∧
    (0 ≤ it.weight → 0 ≤ q → (inv.remove_item it q).1 = true →
      calculate_weight ((inv.remove_item it q).2).items ≤ inv.max_weight) ∧
    ((inv.add_item it q).1 = true ↔
      calculate_weight (addEntry inv.items it q) ≤ inv.max_weight) ∧
    ((inv.add_item it q).1 = true →
      ((inv.add_item it q).2).qtyOf it = inv.qtyOf it + q) ∧
    ((inv.add_item it q).1 = false → (inv.add_item it q).2 = inv) := by
  refine ⟨?_, ?_, Inventory.add_item_fst_true_iff inv it q, ?_,
    fun h => Inventory.add_item_snd_of_false h⟩
  · intro h
    rw [Inventory.add_item_snd_of_true h]
    exact (Inventory.add_item_fst_true_iff inv it q).mp h
  · intro hw0 hq0 hrem
    rcases hg : getEntry inv.items it with _ | p
    · simp [Inventory.remove_item, hg] at hrem
    · by_cases hpq : p < q
      · simp [Inventory.remove_item, hg, hpq] at hrem
      · rw [Inventory.remove_item_of_le q hg hpq]
        show calculate_weight (removeEntry inv.items it q) ≤ inv.max_weight
        rw [calculate_weight_removeEntry q hg]
        have hc : (0 : ℚ) ≤ it.weight * (q : ℚ) :=
          mul_nonneg hw0 (by exact_mod_cast hq0)
        linarith
  · intro h
    rw [Inventory.add_item_snd_of_true h]
    show (getEntry (addEntry inv.items it q) it).getD 0 = inv.qtyOf it + q
    rw [getEntry_addEntry_self, Option.getD_some]
    rfl

/-- Witness for the amended C3: an inventory of cap 10 holding wood x2
(weight 2) stays within the cap after removing one unit, and add_item of
one more wood succeeds with the quantity moving to 3. -/
theorem c3_weight_invariant_witness :
    calculate_weight
        (((Inventory.mk 10 [(woodM, 2)]).remove_item woodM 1).2).items ≤
      (Inventory.mk 10 [(woodM, 2)]).max_weight ∧
    ((Inventory.mk 10 [(woodM, 2)]).add_item woodM 1).2.qtyOf woodM =
      (Inventory.mk 10 [(woodM, 2)]).qtyOf woodM + 1 := by
  have h := c3_weight_invariant (Inventory.mk 10 [(woodM, 2)]) woodM 1
    (by with_unfolding_all exact of_decide_eq_true rfl)
  exact ⟨h.2.1 (by with_unfolding_all exact of_decide_eq_true rfl) (by decide)
      (by with_unfolding_all exact of_decide_eq_true rfl),
    h.2.2.2.1 (by with_unfolding_all exact of_decide_eq_true rfl)⟩

/-- Claim C4: using a heal potion held in the inventory sets health to
min(max_health, health + value) — so health never exceeds max_health — and
then removes exactly one unit of that potion, leaving every other entry of
the inventory untouched. -/
theorem c4_potion_heal (c : Character) (it : Item) (v : Int)
    (hk : it.kind = ItemKind.potion "heal" v)
    (hkeys : (c.inventory.items.map Prod.fst).Nodup)
    (hheld : 1 ≤ c.inventory.qtyOf it) :
    (it.use c).1 = true ∧
    (it.use c).2.health = min c.max_health (c.health + v) ∧
    (it.use c).2.health ≤ c.max_health ∧
    (it.use c).2.inventory.qtyOf it = c.inventory.qtyOf it - 1 ∧
    (∀ j : Item, j ≠ it →
      getEntry (it.use c).2.inventory.items j = getEntry c.inventory.items j) := by
  rcases hg : getEntry c.inventory.items it with _ | p
  · rw [Inventory.qtyOf, hg] at hheld
    norm_num at hheld
  · have hp1 : 1 ≤ p := by
      rw [Inventory.qtyOf, hg] at hheld
      simpa using hheld
    have huse : it.use c =
        (true, { c with
          health := min c.max_health (c.health + v),
          inventory := (c.inventory.remove_item it 1).2 }) := by
      simp [Item.use, hk]
    have hrm := Inventory.remove_item_of_le 1 hg (by omega)
    rw [huse, hrm]
    refine ⟨rfl, rfl, min_le_left _ _, ?_, ?_⟩
    · show (getEntry (removeEntry c.inventory.items it 1) it).getD 0 =
        c.inventory.qtyOf it - 1
      rw [getEntry_removeEntry_self 1 hkeys hg, Inventory.qtyOf, hg,
        Option.getD_some]
      by_cases hz : p - 1 = 0
      · rw [if_pos hz]
        simp only [Option.getD_none]
        omega
      · rw [if_neg hz, Option.getD_some]
    · intro j hj
      exact getEntry_removeEntry_ne 1 hj

/-- Witness for C4: the specification scenario — a warrior at 100 of 150
health uses a value-80 heal potion; health becomes 150 (capped) and the
potion count drops from 3 to 2. -/
theorem c4_potion_heal_witness :
    (healPotionI.use hurtWarriorC).2.health =
      min hurtWarriorC.max_health (hurtWarriorC.health + 80) ∧
    (healPotionI.use hurtWarriorC).2.inventory.qtyOf healPotionI =
      hurtWarriorC.inventory.qtyOf healPotionI - 1 := by
  have h := c4_potion_heal hurtWarriorC healPotionI 80 rfl
    (by with_unfolding_all exact of_decide_eq_true rfl)
    (by with_unfolding_all exact of_decide_eq_true rfl)
  exact ⟨h.2.1, h.2.2.2.1⟩

/-- Claim C10: using a potion whose effect is not "heal" still returns true
and removes one unit of it from the inventory, leaving health unchanged. -/
theorem c10_potion_no_heal (c : Character) (it : Item) (eff : String) (v : Int)
    (hk : it.kind = ItemKind.potion eff v) (heff : eff ≠ "heal")
    (hkeys : (c.inventory.items.map Prod.fst).Nodup)
    (hheld : 1 ≤ c.inventory.qtyOf it) :
    (it.use c).1 = true ∧
    (it.use c).2.health = c.health ∧
    (it.use c).2.inventory.qtyOf it = c.inventory.qtyOf it - 1 := by
  rcases hg : getEntry c.inventory.items it with _ | p
  · rw [Inventory.qtyOf, hg] at hheld
    norm_num at hheld
  · have hp1 : 1 ≤ p := by
      rw [Inventory.qtyOf, hg] at hheld
      simpa using hheld
    have huse : it.use c =
        (true, { c with inventory := (c.inventory.remove_item it 1).2 }) := by
      simp only [Item.use, hk]
      rw [if_neg heff]
    have hrm := Inventory.remove_item_of_le 1 hg (by omega)
    rw [huse, hrm]
    refine ⟨rfl, rfl, ?_⟩
    show (getEntry (removeEntry c.inventory.items it 1) it).getD 0 =
      c.inventory.qtyOf it - 1
    rw [getEntry_removeEntry_self 1 hkeys hg, Inventory.qtyOf, hg,
      Option.getD_some]
    by_cases hz : p - 1 = 0
    · rw [if_pos hz]
      simp only [Option.getD_none]
      omega
    · rw [if_neg hz, Option.getD_some]

/-- Witness for C10: a mage at 50 health uses a "mana" potion: the call
returns true, health stays 50, and the potion count drops from 2 to 1. -/
theorem c10_potion_no_heal_witness :
    (manaPotionI.use manaMageC).1 = true ∧
    (manaPotionI.use manaMageC).2.health = manaMageC.health ∧
    (manaPotionI.use manaMageC).2.inventory.qtyOf manaPotionI =
      manaMageC.inventory.qtyOf manaPotionI - 1 :=
  c10_potion_no_heal manaMageC manaPotionI "mana" 30 rfl (by decide)
    (by with_unfolding_all exact of_decide_eq_true rfl)
    (by with_unfolding_all exact of_decide_eq_true rfl)

/-- Claim C7: can_equip_weapon is true exactly when the weapon class lies in
the fixed allowed set of the character variant — Warrior {sword, axe, mace},
Mage {staff, wand}, Archer {bow, crossbow} — and its value depends only on
the variant and the weapon class (the model is a pure function, so it
mutates nothing). -/
theorem c7_can_equip_weapon (c : Character) (it : Item) (d : Int) (wc : String)
    (hk : it.kind = ItemKind.weapon d wc) :
    (c.can_equip_weapon it = true ↔
      ((c.cls = CharClass.warrior ∧ wc ∈ (["sword", "axe", "mace"] : List String)) ∨
       (c.cls = CharClass.mage ∧ wc ∈ (["staff", "wand"] : List String)) ∨
       (c.cls = CharClass.archer ∧ wc ∈ (["bow", "crossbow"] : List String)))) ∧
    (∀ (c2 : Character) (it2 : Item) (d2 : Int), c2.cls = c.cls →
      it2.kind = ItemKind.weapon d2 wc →
      c2.can_equip_weapon it2 = c.can_equip_weapon it) := by
  constructor
  · simp only [Character.can_equip_weapon, hk]
    rcases hcls : c.cls
    · simp [allowedWeapons]
    · simp [allowedWeapons]
    · simp [allowedWeapons]
  · intro c2 it2 d2 hcls hk2
    simp only [Character.can_equip_weapon, hk, hk2, hcls]

/-- Witness for C7: an archer can equip the bow-class Longbow, and the
equivalence instantiates to its archer clause. -/
theorem c7_can_equip_weapon_witness :
    archerC.can_equip_weapon longbowW = true ↔
      ((archerC.cls = CharClass.warrior ∧
          "bow" ∈ (["sword", "axe", "mace"] : List String)) ∨
       (archerC.cls = CharClass.mage ∧
          "bow" ∈ (["staff", "wand"] : List String)) ∨
       (archerC.cls = CharClass.archer ∧
          "bow" ∈ (["bow", "crossbow"] : List String))) :=
  (c7_can_equip_weapon archerC longbowW 28 "bow" rfl).1

/-- Claim C8: for a weapon found in the inventory under its name, use_item
fails and leaves the whole character — in particular both equipment slots —
unchanged when the weapon class is not allowed for the variant, and returns
true with the weapon slot set to that weapon (armor slot untouched) when it
is allowed. -/
theorem c8_use_item_weapon (c : Character) (it : Item) (d : Int) (wc : String)
    (hk : it.kind = ItemKind.weapon d wc)
    (hfind : c.inventory.get_item_by_name it.name = some it) :
    (c.can_equip_weapon it = false → c.use_item it.name = (false, c)) ∧
    (c.can_equip_weapon it = true →
      (c.use_item it.name).1 = true ∧
      (c.use_item it.name).2.equipment.weapon = some it ∧
      (c.use_item it.name).2.equipment.armor = c.equipment.armor) := by
  have hdeleg : c.use_item it.name = it.use c := by
    simp only [Character.use_item, hfind]
  constructor
  · intro hno
    rw [hdeleg]
    simp only [Item.use, hk, hno]
    rfl
  · intro hyes
    rw [hdeleg]
    simp only [Item.use, hk, hyes]
    exact ⟨rfl, rfl, rfl⟩

/-- Witness for C8: the archer scenario of the specification — equipping
the sword-class Steel Sword fails and changes nothing, equipping the
bow-class Longbow succeeds and fills the weapon slot. -/
theorem c8_use_item_weapon_witness :
    archerC.use_item "Steel Sword" = (false, archerC) ∧
    (archerC.use_item "Longbow").1 = true ∧
    (archerC.use_item "Longbow").2.equipment.weapon = some longbowW := by
  have hsword := c8_use_item_weapon archerC steelSwordW 30 "sword" rfl
    (by with_unfolding_all exact of_decide_eq_true rfl)
  have hbow := c8_use_item_weapon archerC longbowW 28 "bow" rfl
    (by with_unfolding_all exact of_decide_eq_true rfl)
  refine ⟨hsword.1 (by decide), ?_, ?_⟩
  · exact (hbow.2 (by decide)).1
  · exact (hbow.2 (by decide)).2.1

/-- Claim C9: for a class string whose lowercase form is warrior, mage or
archer, create_character returns the constructed character with its
inventory replaced by the starter preset — max_weight 50.0 holding exactly
Water x2, Bread x3 and Gold Coins x50 — discarding the capacity set at
construction (Warrior 80.0, Mage 40.0, Archer 60.0); any other class string
yields none. -/
theorem c9_create_character (s nm : String) :
    (s.toLower = "warrior" →
      Character.create_character s nm =
        some { warriorInit nm with
          inventory := Inventory.create_starter_inventory }) ∧
    (s.toLower = "mage" →
      Character.create_character s nm =
        some { mageInit nm with
          inventory := Inventory.create_starter_inventory }) ∧
    (s.toLower = "archer" →
      Character.create_character s nm =
        some { archerInit nm with
          inventory := Inventory.create_starter_inventory }) ∧
    (s.toLower ∉ (["warrior", "mage", "archer"] : List String) →
      Character.create_character s nm = none) ∧
    Inventory.create_starter_inventory.max_weight = 50 ∧
    Inventory.create_starter_inventory.items =
      [(waterItem, 2), (breadItem, 3), (goldItem, 50)] ∧
    (warriorInit nm).inventory.max_weight = 80 ∧
    (mageInit nm).inventory.max_weight = 40 ∧
    (archerInit nm).inventory.max_weight = 60 := by
  refine ⟨?_, ?_, ?_, ?_, ?_, ?_, rfl, rfl, rfl⟩
  · intro h
    rw [Character.create_character, if_pos h]
  · intro h
    have h1 : ¬ s.toLower = "warrior" := by
      rw [h]
      decide
    rw [Character.create_character, if_neg h1, if_pos h]
  · intro h
    have h1 : ¬ s.toLower = "warrior" := by
      rw [h]
      decide
    have h2 : ¬ s.toLower = "mage" := by
      rw [h]
      decide
    rw [Character.create_character, if_neg h1, if_neg h2, if_pos h]
  · intro h
    simp only [List.mem_cons, List.not_mem_nil, or_false] at h
    push_neg at h
    rw [Character.create_character, if_neg h.1, if_neg h.2.1, if_neg h.2.2]
  · with_unfolding_all exact of_decide_eq_true rfl
  · with_unfolding_all exact of_decide_eq_true rfl

/-- Witness for C9: the factory gives a warrior (case-insensitively) whose
inventory is the starter preset, and an unknown class string gives none. -/
theorem c9_create_character_witness :
    Character.create_character "Warrior" "A" =
      some { warriorInit "A" with
        inventory := Inventory.create_starter_inventory } ∧
    Character.create_character "banana" "A" = none := by
  have h1 := c9_create_character "Warrior" "A"
  have h2 := c9_create_character "banana" "A"
  exact ⟨h1.1 (by with_unfolding_all exact of_decide_eq_true rfl),
    h2.2.2.2.1 (by with_unfolding_all exact of_decide_eq_true rfl)⟩

/-- Counterexample to C5 as stated: starting from an empty inventory,
the single call add_item(wood, 0) succeeds (the weight check passes at
equality) and stores the entry with quantity 0 — `self.items[item] = 0` —
which the container never deletes, so a reachable state carries an entry
whose quantity is below 1. -/
theorem c5_quantity_invariant_counterexample :
    (woodM, 0) ∈ (runCalls (Inventory.mk 0 []) [InvCall.add woodM 0]).items ∧
    ¬ (1 : Int) ≤ 0 := by
  with_unfolding_all exact of_decide_eq_true rfl

/-- Claim C5 (amended): for every inventory reachable from an empty one
through add_item and remove_item calls whose quantity arguments are all at
least 1, every stored entry has quantity at least 1 (an entry reaching 0 is
deleted). -/
theorem c5_quantity_invariant (mw : ℚ) (cs : List InvCall)
    (hq : ∀ call ∈ cs, 1 ≤ call.qty) :
    ∀ e ∈ (runCalls (Inventory.mk mw []) cs).items, 1 ≤ e.2 := by
  have main : ∀ (cs2 : List InvCall) (inv : Inventory),
      (∀ call ∈ cs2, 1 ≤ call.qty) → (∀ e ∈ inv.items, 1 ≤ e.2) →
      ∀ e ∈ (runCalls inv cs2).items, 1 ≤ e.2 := by
    intro cs2
    induction cs2 with
    | nil =>
      intro inv _ hinv
      simpa [runCalls] using hinv
    | cons hd tl ih =>
      intro inv hqs hinv
      have hstep : runCalls inv (hd :: tl) = runCalls (applyCall inv hd) tl := rfl
      rw [hstep]
      refine ih (applyCall inv hd)
        (fun call hc => hqs call (List.mem_cons_of_mem _ hc)) ?_
      have hq1 : 1 ≤ hd.qty := hqs hd (List.mem_cons_self _ _)
      cases hd with
      | add it q =>
        show ∀ e ∈ ((inv.add_item it q).2).items, 1 ≤ e.2
        rcases Bool.eq_false_or_eq_true (inv.add_item it q).1 with hb | hb
        · rw [Inventory.add_item_snd_of_true hb]
          exact addEntry_entries_pos hinv hq1
        · rw [Inventory.add_item_snd_of_false hb]
          exact hinv
      | remove it q =>
        show ∀ e ∈ ((inv.remove_item it q).2).items, 1 ≤ e.2
        rcases hg : getEntry inv.items it with _ | p
        · simp only [Inventory.remove_item, hg]
          exact hinv
        · by_cases hpq : p < q
          · simp only [Inventory.remove_item, hg, if_pos hpq]
            exact hinv
          · rw [Inventory.remove_item_of_le q hg hpq]
            exact removeEntry_entries_pos hinv hg (not_lt.mp hpq)
  exact main cs (Inventory.mk mw []) hq (by simp)

/-- Witness for the amended C5: adding wood x2 and removing one leaves the
single entry at quantity 1, which is at least 1. -/
theorem c5_quantity_invariant_witness :
    (woodM, 1) ∈
      (runCalls (Inventory.mk 50 [])
        [InvCall.add woodM 2, InvCall.remove woodM 1]).items ∧
    (1 : Int) ≤ ((woodM, (1 : Int))).2 := by
  constructor
  · with_unfolding_all exact of_decide_eq_true rfl
  · exact c5_quantity_invariant 50 [InvCall.add woodM 2, InvCall.remove woodM 1]
      (by decide) (woodM, 1)
      (by with_unfolding_all exact of_decide_eq_true rfl)

/-- Counterexample to C6 as stated: on the inventory state holding the wood
entry at quantity -1 (itself reachable, e.g. by add_item(wood, -1) on a
0-weight item, and permitted by the Int-typed quantity), add_item(wood, 1)
succeeds and brings the entry to 0, but the immediately following
remove_item(wood, 1) fails — 0 < 1 — instead of succeeding, so the claimed
round trip does not hold on every inventory state. -/
theorem c6_roundtrip_counterexample :
    ((Inventory.mk 10 [(woodM, -1)]).add_item woodM 1).1 = true ∧
    (((Inventory.mk 10 [(woodM, -1)]).add_item woodM 1).2.remove_item
      woodM 1).1 = false := by
  with_unfolding_all exact of_decide_eq_true rfl

/-- Claim C6 (amended): on every inventory state whose stored quantities
are all nonnegative, if add_item(item, q) succeeds then the immediately
following remove_item(item, q) succeeds and restores the exact prior
mapping — the prior quantity of that item, with the entry deleted when the
prior quantity was 0, and every other entry unchanged. -/
theorem c6_add_remove_roundtrip (inv : Inventory) (it : Item) (q : Int)
    (hpos : ∀ e ∈ inv.items, 0 ≤ e.2)
    (hadd : (inv.add_item it q).1 = true) :
    (((inv.add_item it q).2).remove_item it q).1 = true ∧
    (((inv.add_item it q).2).remove_item it q).2 =
      { inv with items :=
          if getEntry inv.items it = some 0 then eraseKey inv.items it
          else inv.items } := by
  have hq := getEntry_addEntry_self inv.items it q
  have hge : 0 ≤ (getEntry inv.items it).getD 0 := by
    rcases hg : getEntry inv.items it with _ | p
    · simp
    · simpa using hpos (it, p) (getEntry_mem hg)
  have hguard : ¬ ((getEntry inv.items it).getD 0 + q) < q := by omega
  rw [Inventory.add_item_snd_of_true hadd]
  have hrm := Inventory.remove_item_of_le q
    (show getEntry ({ inv with items := addEntry inv.items it q} :
      Inventory).items it = some ((getEntry inv.items it).getD 0 + q) from hq)
    hguard
  rw [hrm]
  refine ⟨rfl, ?_⟩
  show ({ inv with
      items := removeEntry (addEntry inv.items it q) it q } : Inventory) = _
  rw [removeEntry_addEntry]

/-- Witness for the amended C6: wood x2 under a cap of 10; adding one then
removing one restores the state with wood x2. -/
theorem c6_add_remove_roundtrip_witness :
    (((Inventory.mk 10 [(woodM, 2)]).add_item woodM 1).2.remove_item
      woodM 1).1 = true ∧
    (((Inventory.mk 10 [(woodM, 2)]).add_item woodM 1).2.remove_item
      woodM 1).2 = Inventory.mk 10 [(woodM, 2)] := by
  have h := c6_add_remove_roundtrip (Inventory.mk 10 [(woodM, 2)]) woodM 1
    (by with_unfolding_all exact of_decide_eq_true rfl)
    (by with_unfolding_all exact of_decide_eq_true rfl)
  exact ⟨h.1, h.2.trans (by with_unfolding_all exact of_decide_eq_true rfl)⟩
